import Mathlib

/-!
Shallow embedding of the game-logic systems of `src/main.rs` (a falling-block
puzzle game built on an ECS framework).  Entities carrying a `Position` are
modelled as lists of positions: `active` holds the positions of the
`PrimitiveBlock` entities (the falling piece), `stacked` the positions of the
`StackedBlock` entities (the locked board).  Deferred entity despawns inside
`destroy_block` are modelled with an aliveness flag.  Wall-clock time (`f64`
in the source, only ever set and compared) is modelled as `ℚ`.
-/

namespace Tetris

/-- Grid cell coordinate pair, `Position` in the source (`i32` fields). -/
structure Pos where
  x : Int
  y : Int
deriving DecidableEq, Repr

/-- `ARENA_WIDTH` constant (u32 = 10). -/
def ARENA_WIDTH : Nat := 10

/-- `ARENA_HEIGHT` constant (u32 = 20). -/
def ARENA_HEIGHT : Nat := 20

/-- `BLOCK_RESPAWN_DELAY` constant (1.0 seconds). -/
def BLOCK_RESPAWN_DELAY : ℚ := 1

/-- The `Direction` component. -/
inductive Direction where
  | Neutral
  | Left
  | Up
  | Right
  | Down
deriving DecidableEq, Repr

/-- Snapshot of the game state acted on by the systems: positions of the
`PrimitiveBlock` (active) and `StackedBlock` (locked) entities plus the
`ActiveBlock` resource's `is_on` and `direction` fields and the `StackTime`
resource. -/
structure Board where
  active : List Pos
  stacked : List Pos
  is_on : Bool
  direction : Direction
  stack_time : ℚ
deriving DecidableEq, Repr

/-- Initial state: no block entities, `is_on = false`, `Direction::Neutral`,
`StackTime(0.)`. -/
def initBoard : Board :=
  { active := [], stacked := [], is_on := false,
    direction := Direction.Neutral, stack_time := 0 }

/-- The `is_collision` closure used by the movement / gravity / lock systems:
does the candidate position coincide with some stacked cell. -/
def is_collision (stacked : List Pos) (p : Pos) : Bool :=
  stacked.any (fun q => q = p)

/-- `move_tetoriminos`: translate every active cell by `diff`. -/
def move_tetoriminos (active : List Pos) (diff : Pos) : List Pos :=
  active.map (fun p => ⟨p.x + diff.x, p.y + diff.y⟩)

/-- The `BLOCKMAP` shape catalog, in insertion order; note the keys run from
1 to 7. -/
def BLOCKMAP : List (Nat × List Pos) :=
  [ (1, [⟨0, 0⟩, ⟨1, 0⟩, ⟨0, 1⟩, ⟨1, 1⟩]),
    (2, [⟨-1, 1⟩, ⟨0, 1⟩, ⟨0, 0⟩, ⟨1, 0⟩]),
    (3, [⟨-1, 0⟩, ⟨0, 0⟩, ⟨0, 1⟩, ⟨1, 1⟩]),
    (4, [⟨1, 0⟩, ⟨0, 0⟩, ⟨0, 1⟩, ⟨0, 2⟩]),
    (5, [⟨-1, 0⟩, ⟨0, 0⟩, ⟨0, 1⟩, ⟨0, 2⟩]),
    (6, [⟨-1, 0⟩, ⟨0, 0⟩, ⟨1, 0⟩, ⟨0, 1⟩]),
    (7, [⟨0, 0⟩, ⟨0, 1⟩, ⟨0, 2⟩, ⟨0, 3⟩]) ]

/-- `BLOCKMAP.get(&idx)`: hash-map lookup on the catalog. -/
def blockmap_get (idx : Nat) : Option (List Pos) :=
  (BLOCKMAP.find? (fun kv => kv.1 = idx)).map (fun kv => kv.2)

/-- `spawn_block`, parametrised by the sampled index
`idx = (random::<f32>() * 7.0) as u32`: when no piece is active, look the
index up in `BLOCKMAP`; when found, spawn its cells translated to the base
position `(3, ARENA_HEIGHT - 1)`; in every case set `is_on` to true. -/
def spawn_block (idx : Nat) (b : Board) : Board :=
  if b.is_on then b
  else
    match blockmap_get idx with
    | some positions =>
        { b with
          active := b.active ++
            positions.map (fun p => ⟨p.x + 3, p.y + ((ARENA_HEIGHT : Int) - 1)⟩),
          is_on := true }
    | none => { b with is_on := true }

/-- `respawn_block`: re-run `spawn_block` once the respawn delay has elapsed
since the last lock. -/
def respawn_block (idx : Nat) (now : ℚ) (b : Board) : Board :=
  if !b.is_on && decide (now > b.stack_time + BLOCK_RESPAWN_DELAY) then
    spawn_block idx b
  else b

/-- Keyboard snapshot consumed by `block_movement_input`:
`just_pressed(Left/Right/Up)` and `pressed(Down)`. -/
structure KeyState where
  left_jp : Bool
  right_jp : Bool
  down_pr : Bool
  up_jp : Bool
deriving DecidableEq, Repr

/-- `block_movement_input`: resolve the keyboard snapshot to a direction and
store it in the `ActiveBlock` resource. -/
def block_movement_input (k : KeyState) (b : Board) : Board :=
  let dir : Direction :=
    if k.left_jp then Direction.Left
    else if k.right_jp then Direction.Right
    else if k.down_pr then Direction.Down
    else if k.up_jp then Direction.Up
    else Direction.Neutral
  { b with direction := dir }

/-- `block_free_fall` (the gravity system): skip entirely while the resolved
direction is `Down`; otherwise set `collision_flag` when some active cell has
`y <= 0` and its one-step-down position does NOT coincide with a stacked
cell (this is the literal condition of the source), and move the whole piece
down one row when the flag stayed false. -/
def block_free_fall (b : Board) : Board :=
  if b.direction = Direction.Down then b
  else
    let collision_flag :=
      b.active.any (fun p =>
        decide (p.y ≤ 0) && !(is_collision b.stacked ⟨p.x, p.y - 1⟩))
    if collision_flag then b
    else { b with active := move_tetoriminos b.active ⟨0, -1⟩ }

/-- `block_movement` (the input-movement system): per direction, flag a
collision when some cell's one-step candidate hits a stacked cell or the
corresponding wall/floor bound, and commit the whole one-step translation
only when no cell was flagged.  There is no branch for `Direction::Up`. -/
def block_movement (b : Board) : Board :=
  let collision_flag :=
    if b.direction = Direction.Left then
      b.active.any (fun p =>
        is_collision b.stacked ⟨p.x - 1, p.y⟩ || decide (p.x ≤ 0))
    else if b.direction = Direction.Right then
      b.active.any (fun p =>
        is_collision b.stacked ⟨p.x + 1, p.y⟩ ||
          decide (p.x ≥ (ARENA_WIDTH : Int) - 1))
    else if b.direction = Direction.Down then
      b.active.any (fun p =>
        is_collision b.stacked ⟨p.x, p.y - 1⟩ || decide (p.y ≤ 0))
    else false
  if collision_flag then b
  else if b.direction = Direction.Left then
    { b with active := move_tetoriminos b.active ⟨-1, 0⟩ }
  else if b.direction = Direction.Right then
    { b with active := move_tetoriminos b.active ⟨1, 0⟩ }
  else if b.direction = Direction.Down then
    { b with active := move_tetoriminos b.active ⟨0, -1⟩ }
  else b

/-- `stack_block` (the lock system): when some active cell touches the ground
(`y <= 0`), or some active cell's one-step-down position coincides with a
stacked cell, convert every active cell into a stacked cell at the same
position, clear the active piece, reset `is_on` and record the lock time. -/
def stack_block (now : ℚ) (b : Board) : Board :=
  let stacked_board : Board :=
    { b with
      stacked := b.stacked ++ b.active,
      active := [],
      is_on := false,
      stack_time := now }
  if b.active.any (fun p => decide (p.y ≤ 0)) then stacked_board
  else if b.active.any (fun p => is_collision b.stacked ⟨p.x, p.y - 1⟩) then
    stacked_board
  else b

/-- Number of entities (despawn-pending ones included, since despawns are
deferred to the end of the system) whose position sits in row `h`. -/
def rowEntities (cells : List (Pos × Bool)) (h : Nat) : Nat :=
  (cells.filter (fun c => decide (c.1.y = (h : Int)))).length

/-- One row clear inside `destroy_block`: mark every entity in row `h` as
despawned (position kept — the despawn command is deferred), then shift every
entity strictly above `h` down one row. -/
def clearRow (cells : List (Pos × Bool)) (h : Nat) : List (Pos × Bool) :=
  (cells.map (fun c => if c.1.y = (h : Int) then (c.1, false) else c)).map
    (fun c => if (h : Int) < c.1.y then (⟨c.1.x, c.1.y - 1⟩, c.2) else c)

/-- The row scan of `destroy_block`, from row `h` with `fuel` rows left to
scan: a row holding exactly `ARENA_WIDTH` entities is cleared; a row holding
no entity aborts the whole scan (the source's early `return`); otherwise the
scan moves on to the next row. -/
def destroyFrom : List (Pos × Bool) → Nat → Nat → List (Pos × Bool)
  | cells, _, 0 => cells
  | cells, h, fuel + 1 =>
    if rowEntities cells h = ARENA_WIDTH then
      destroyFrom (clearRow cells h) (h + 1) fuel
    else if rowEntities cells h = 0 then cells
    else destroyFrom cells (h + 1) fuel

/-- `destroy_block` (the line-clear system) on the stacked-cell list: run the
scan over rows `0 .. ARENA_HEIGHT - 1`, then apply the queued despawns. -/
def destroy_block (stacked : List Pos) : List Pos :=
  ((destroyFrom (stacked.map (fun p => (p, true))) 0 ARENA_HEIGHT).filter
      (fun c => c.2)).map (fun c => c.1)

/-- `destroy_block` lifted to the board state. -/
def destroy_board (b : Board) : Board :=
  { b with stacked := destroy_block b.stacked }

/-- One scheduler invocation of a game-logic system, with its external
inputs (sampled random index, keyboard snapshot, clock reading). -/
inductive Act where
  | spawn (idx : Nat)
  | input (k : KeyState)
  | move
  | fall
  | stack (now : ℚ)
  | respawn (idx : Nat) (now : ℚ)
  | destroy
deriving Repr

/-- Apply one system invocation to the board. -/
def applyAct : Act → Board → Board
  | Act.spawn idx, b => spawn_block idx b
  | Act.input k, b => block_movement_input k b
  | Act.move, b => block_movement b
  | Act.fall, b => block_free_fall b
  | Act.stack now, b => stack_block now b
  | Act.respawn idx now, b => respawn_block idx now b
  | Act.destroy, b => destroy_board b

/-- Apply a sequence of system invocations, oldest first. -/
def applyActs (acts : List Act) (b : Board) : Board :=
  acts.foldl (fun s a => applyAct a s) b

/-- A board state is reachable when some sequence of system invocations
produces it from the initial state.  The spawn index is left unconstrained
here, which over-approximates the program (sound for invariants); the
sampler-faithful restriction is `ReachableSampled` below. -/
def Reachable (b : Board) : Prop :=
  ∃ acts : List Act, b = applyActs acts initBoard

/-- The indices the source's sampler can actually produce:
`(random::<f32>() * 7.0) as u32` with `random::<f32>() ∈ [0, 1)` yields
exactly the integers `0 .. 6` (so `BLOCKMAP` key 7 is never drawn). -/
def SampledIdx (idx : Nat) : Prop := idx < 7

instance : DecidablePred SampledIdx := fun idx => by
  unfold SampledIdx; infer_instance

/-- An invocation whose external inputs the source can actually produce: any
spawn or respawn index lies in the sampler's range. -/
def ActSampled : Act → Prop
  | Act.spawn idx => SampledIdx idx
  | Act.respawn idx _ => SampledIdx idx
  | _ => True

instance : DecidablePred ActSampled := fun a => by
  cases a <;> unfold ActSampled <;> infer_instance

/-- Reachability restricted to sampler-producible invocations: every state
satisfying it is reachable in the program. -/
def ReachableSampled (b : Board) : Prop :=
  ∃ acts : List Act, (∀ a ∈ acts, ActSampled a) ∧ b = applyActs acts initBoard

/-- Cell bounds that the game actually maintains: the x coordinate stays on
the board and the y coordinate stays non-negative (there is no upper bound
on y: pieces spawn with cells up to row `ARENA_HEIGHT + 2` and lock there
when the stack is high enough). -/
def InBounds (p : Pos) : Prop :=
  0 ≤ p.x ∧ p.x < (ARENA_WIDTH : Int) ∧ 0 ≤ p.y

instance : DecidablePred InBounds := fun p => by
  unfold InBounds; infer_instance

/-- Bounds invariant on a whole board state. -/
def BoardInv (b : Board) : Prop :=
  (∀ p ∈ b.active, InBounds p) ∧ (∀ p ∈ b.stacked, InBounds p)

instance : DecidablePred BoardInv := fun b => by
  unfold BoardInv; infer_instance

/-- Number of locked cells in row `h` (spec-side counting used to state the
line-clear properties). -/
def rowCount (cells : List Pos) (h : Nat) : Nat :=
  (cells.filter (fun p => decide (p.y = (h : Int)))).length

/-- One-step offset of a movement direction (spec 4.3: `∓1` in x for
`Left`/`Right`, `−1` in y for `SoftDrop`). -/
def dirDiff : Direction → Pos
  | Direction.Left => ⟨-1, 0⟩
  | Direction.Right => ⟨1, 0⟩
  | Direction.Down => ⟨0, -1⟩
  | _ => ⟨0, 0⟩

/-- Translate a cell by an offset. -/
def shiftPos (d : Pos) (p : Pos) : Pos := ⟨p.x + d.x, p.y + d.y⟩

/-- Modelled from the spec (4.2 Collision Detector): a candidate cell is
blocked iff it is out of the horizontal bounds, below the floor, or equal to
a locked cell.  Stated for comparison with the source's per-direction
checks. -/
def specBlocked (stacked : List Pos) (p : Pos) : Prop :=
  p.x < 0 ∨ (ARENA_WIDTH : Int) ≤ p.x ∨ p.y < 0 ∨ p ∈ stacked

instance (stacked : List Pos) : DecidablePred (specBlocked stacked) := fun p => by
  unfold specBlocked; infer_instance

/-- Board exhibiting the gravity slip: the active cell sits one row above a
locked cell. -/
def c1Board : Board :=
  { active := [⟨0, 5⟩], stacked := [⟨0, 4⟩], is_on := true,
    direction := Direction.Neutral, stack_time := 0 }

/-- Scenario C of the spec: one full row at height 3 and a single locked cell
at `(0, 5)`; every row below 3 is empty. -/
def scenarioC : List Pos :=
  (List.range 10).map (fun i => ⟨(i : Int), 3⟩) ++ [⟨0, 5⟩]

/-- Scenario C completed with one locked cell in each of the rows 0, 1, 2, so
that the bottom-up scan of `destroy_block` actually reaches row 3. -/
def c2cells : List Pos :=
  [⟨0, 0⟩, ⟨0, 1⟩, ⟨0, 2⟩] ++ (List.range 10).map (fun i => ⟨(i : Int), 3⟩) ++
    [⟨0, 5⟩]

/-- Scenario-B-style board for the lock manager: a single-cell piece resting
on the floor. -/
def scenarioB : Board :=
  { active := [⟨5, 0⟩], stacked := [], is_on := true,
    direction := Direction.Neutral, stack_time := 0 }

/-- Two-cell piece in open space moving left, for the atomic-move witness. -/
def c5Board : Board :=
  { active := [⟨3, 5⟩, ⟨4, 5⟩], stacked := [⟨4, 4⟩], is_on := true,
    direction := Direction.Left, stack_time := 0 }

/-- Soft-dropping piece one row above a locked cell, for the
gravity-suppression witness. -/
def softDropBoard : Board :=
  { active := [⟨4, 6⟩], stacked := [⟨4, 4⟩], is_on := true,
    direction := Direction.Down, stack_time := 0 }

/-- Piece with its origin well below the top row, with the up input resolved. -/
def riseBoard : Board :=
  { active := [⟨3, 5⟩], stacked := [], is_on := true,
    direction := Direction.Up, stack_time := 0 }

/-- Keyboard snapshot holding the down key. -/
def keyDown : KeyState :=
  { left_jp := false, right_jp := false, down_pr := true, up_jp := false }

/-- Action trace that soft-drops seven L-pieces (catalog key 4, sampled index
4, inside the sampler's range `0..6`) onto each other in columns 3/4: each
piece rests three rows above the previous one, and the seventh locks with a
cell at `(3, 20)`, above `ARENA_HEIGHT - 1`. -/
def c6trace : List Act :=
  [Act.spawn 4, Act.input keyDown] ++ List.replicate 19 Act.move ++
  [Act.stack 1, Act.spawn 4] ++ List.replicate 16 Act.move ++
  [Act.stack 2, Act.spawn 4] ++ List.replicate 13 Act.move ++
  [Act.stack 3, Act.spawn 4] ++ List.replicate 10 Act.move ++
  [Act.stack 4, Act.spawn 4] ++ List.replicate 7 Act.move ++
  [Act.stack 5, Act.spawn 4] ++ List.replicate 4 Act.move ++
  [Act.stack 6, Act.spawn 4] ++ List.replicate 1 Act.move ++
  [Act.stack 7]

/-! Helper lemmas: the bounds invariant is preserved by every system. -/

theorem is_collision_eq_true {stacked : List Pos} {p : Pos} :
    is_collision stacked p = true ↔ p ∈ stacked := by
  simp [is_collision, List.any_eq_true]

theorem inBounds_iff {p : Pos} :
    InBounds p ↔ 0 ≤ p.x ∧ p.x < 10 ∧ 0 ≤ p.y := by
  unfold InBounds ARENA_WIDTH
  norm_num

theorem blockmap_mem_bounds :
    ∀ kv ∈ BLOCKMAP, ∀ p ∈ kv.2,
      -1 ≤ p.x ∧ p.x ≤ 1 ∧ 0 ≤ p.y ∧ p.y ≤ 3 := by decide

theorem blockmap_get_bounds {idx : Nat} {l : List Pos}
    (h : blockmap_get idx = some l) :
    ∀ p ∈ l, -1 ≤ p.x ∧ p.x ≤ 1 ∧ 0 ≤ p.y ∧ p.y ≤ 3 := by
  unfold blockmap_get at h
  cases hf : BLOCKMAP.find? (fun kv => kv.1 = idx) with
  | none => rw [hf] at h; simp at h
  | some kv =>
    rw [hf] at h
    have h2 : kv.2 = l := by simpa using h
    subst h2
    exact blockmap_mem_bounds kv (List.mem_of_find?_eq_some hf)

theorem spawn_block_inv {idx : Nat} {b : Board} (hb : BoardInv b) :
    BoardInv (spawn_block idx b) := by
  obtain ⟨ha, hs⟩ := hb
  unfold spawn_block
  split
  · exact ⟨ha, hs⟩
  · cases hfind : blockmap_get idx with
    | none => exact ⟨ha, hs⟩
    | some l =>
      refine ⟨?_, hs⟩
      intro p hp
      rw [List.mem_append] at hp
      rcases hp with hp | hp
      · exact ha p hp
      · rw [List.mem_map] at hp
        obtain ⟨q, hq, rfl⟩ := hp
        have hqb := blockmap_get_bounds hfind q hq
        rw [inBounds_iff]
        simp only [ARENA_HEIGHT]
        omega

theorem block_movement_input_inv {k : KeyState} {b : Board} (hb : BoardInv b) :
    BoardInv (block_movement_input k b) := hb

theorem respawn_is_spawn_or_id (idx : Nat) (now : ℚ) (b : Board) :
    respawn_block idx now b = spawn_block idx b ∨ respawn_block idx now b = b := by
  unfold respawn_block
  split
  · exact Or.inl rfl
  · exact Or.inr rfl

theorem respawn_block_inv {idx : Nat} {now : ℚ} {b : Board} (hb : BoardInv b) :
    BoardInv (respawn_block idx now b) := by
  rcases respawn_is_spawn_or_id idx now b with h | h <;> rw [h]
  · exact spawn_block_inv hb
  · exact hb

theorem block_movement_of_left {b : Board} (hd : b.direction = Direction.Left) :
    block_movement b =
      if b.active.any (fun p =>
          is_collision b.stacked ⟨p.x - 1, p.y⟩ || decide (p.x ≤ 0)) then b
      else { b with active := move_tetoriminos b.active ⟨-1, 0⟩ } := by
  unfold block_movement
  rw [hd]
  simp

theorem block_movement_of_right {b : Board} (hd : b.direction = Direction.Right) :
    block_movement b =
      if b.active.any (fun p =>
          is_collision b.stacked ⟨p.x + 1, p.y⟩ ||
            decide (p.x ≥ (ARENA_WIDTH : Int) - 1)) then b
      else { b with active := move_tetoriminos b.active ⟨1, 0⟩ } := by
  unfold block_movement
  rw [hd]
  simp

theorem block_movement_of_down {b : Board} (hd : b.direction = Direction.Down) :
    block_movement b =
      if b.active.any (fun p =>
          is_collision b.stacked ⟨p.x, p.y - 1⟩ || decide (p.y ≤ 0)) then b
      else { b with active := move_tetoriminos b.active ⟨0, -1⟩ } := by
  unfold block_movement
  rw [hd]
  simp

theorem block_movement_of_other {b : Board}
    (h1 : b.direction ≠ Direction.Left) (h2 : b.direction ≠ Direction.Right)
    (h3 : b.direction ≠ Direction.Down) :
    block_movement b = b := by
  unfold block_movement
  simp [h1, h2, h3]

theorem block_free_fall_of_down {b : Board} (hd : b.direction = Direction.Down) :
    block_free_fall b = b := by
  unfold block_free_fall
  rw [if_pos hd]

theorem block_free_fall_of_not_down {b : Board}
    (hd : ¬ b.direction = Direction.Down) :
    block_free_fall b =
      if b.active.any (fun p =>
          decide (p.y ≤ 0) && !(is_collision b.stacked ⟨p.x, p.y - 1⟩)) then b
      else { b with active := move_tetoriminos b.active ⟨0, -1⟩ } := by
  unfold block_free_fall
  rw [if_neg hd]

theorem block_movement_inv {b : Board} (hb : BoardInv b) :
    BoardInv (block_movement b) := by
  obtain ⟨ha, hs⟩ := hb
  by_cases hL : b.direction = Direction.Left
  · rw [block_movement_of_left hL]
    split
    · exact ⟨ha, hs⟩
    · rename_i hflag
      rw [Bool.not_eq_true, List.any_eq_false] at hflag
      refine ⟨?_, hs⟩
      intro p hp
      rw [move_tetoriminos, List.mem_map] at hp
      obtain ⟨q, hq, rfl⟩ := hp
      have hq2 := hflag q hq
      simp only [Bool.or_eq_true, decide_eq_true_eq, not_or] at hq2
      have hqb := ha q hq
      rw [inBounds_iff] at hqb ⊢
      dsimp only
      omega
  by_cases hR : b.direction = Direction.Right
  · rw [block_movement_of_right hR]
    split
    · exact ⟨ha, hs⟩
    · rename_i hflag
      rw [Bool.not_eq_true, List.any_eq_false] at hflag
      refine ⟨?_, hs⟩
      intro p hp
      rw [move_tetoriminos, List.mem_map] at hp
      obtain ⟨q, hq, rfl⟩ := hp
      have hq2 := hflag q hq
      simp only [Bool.or_eq_true, decide_eq_true_eq, not_or, ARENA_WIDTH] at hq2
      have hqb := ha q hq
      rw [inBounds_iff] at hqb ⊢
      dsimp only
      omega
  by_cases hD : b.direction = Direction.Down
  · rw [block_movement_of_down hD]
    split
    · exact ⟨ha, hs⟩
    · rename_i hflag
      rw [Bool.not_eq_true, List.any_eq_false] at hflag
      refine ⟨?_, hs⟩
      intro p hp
      rw [move_tetoriminos, List.mem_map] at hp
      obtain ⟨q, hq, rfl⟩ := hp
      have hq2 := hflag q hq
      simp only [Bool.or_eq_true, decide_eq_true_eq, not_or] at hq2
      have hqb := ha q hq
      rw [inBounds_iff] at hqb ⊢
      dsimp only
      omega
  · rw [block_movement_of_other hL hR hD]
    exact ⟨ha, hs⟩

theorem block_free_fall_inv {b : Board} (hb : BoardInv b) :
    BoardInv (block_free_fall b) := by
  obtain ⟨ha, hs⟩ := hb
  by_cases hD : b.direction = Direction.Down
  · rw [block_free_fall_of_down hD]
    exact ⟨ha, hs⟩
  rw [block_free_fall_of_not_down hD]
  split
  · exact ⟨ha, hs⟩
  rename_i hflag
  rw [Bool.not_eq_true, List.any_eq_false] at hflag
  refine ⟨?_, hs⟩
  intro p hp
  rw [move_tetoriminos, List.mem_map] at hp
  obtain ⟨q, hq, rfl⟩ := hp
  have hq2 := hflag q hq
  simp only [Bool.and_eq_true, decide_eq_true_eq, Bool.not_eq_true',
    Bool.not_eq_false, not_and] at hq2
  have hqb := ha q hq
  rw [inBounds_iff] at hqb ⊢
  dsimp only
  by_cases hy : q.y ≤ 0
  · have hcoll := hq2 hy
    rw [is_collision_eq_true] at hcoll
    have hmem := hs _ hcoll
    rw [inBounds_iff] at hmem
    dsimp only at hmem
    omega
  · omega

theorem stack_block_inv {now : ℚ} {b : Board} (hb : BoardInv b) :
    BoardInv (stack_block now b) := by
  obtain ⟨ha, hs⟩ := hb
  have hboth : BoardInv
      { b with stacked := b.stacked ++ b.active, active := [], is_on := false,
               stack_time := now } := by
    unfold BoardInv
    refine ⟨?_, ?_⟩
    · intro p hp
      cases hp
    · intro p hp
      rw [List.mem_append] at hp
      rcases hp with hp | hp
      · exact hs p hp
      · exact ha p hp
  unfold stack_block
  split
  · exact hboth
  split
  · exact hboth
  · exact ⟨ha, hs⟩

theorem clearRow_eq_map (cells : List (Pos × Bool)) (h : Nat) :
    clearRow cells h = cells.map (fun c =>
      if c.1.y = (h : Int) then (c.1, false)
      else if (h : Int) < c.1.y then (⟨c.1.x, c.1.y - 1⟩, c.2) else c) := by
  unfold clearRow
  rw [List.map_map]
  apply List.map_congr_left
  intro c _
  by_cases h1 : c.1.y = (h : Int)
  · rw [Function.comp_apply, if_pos h1, if_pos h1]
    dsimp only
    rw [if_neg (by omega)]
  · rw [Function.comp_apply, if_neg h1, if_neg h1]

theorem clearRow_inv {cells : List (Pos × Bool)} {h : Nat}
    (hc : ∀ c ∈ cells, InBounds c.1) :
    ∀ c ∈ clearRow cells h, InBounds c.1 := by
  intro c hcmem
  rw [clearRow_eq_map, List.mem_map] at hcmem
  obtain ⟨c0, hc0, rfl⟩ := hcmem
  have hb0 := hc c0 hc0
  rw [inBounds_iff] at hb0 ⊢
  by_cases h1 : c0.1.y = (h : Int)
  · rw [if_pos h1]
    exact hb0
  rw [if_neg h1]
  by_cases h2 : (h : Int) < c0.1.y
  · rw [if_pos h2]
    dsimp only
    omega
  · rw [if_neg h2]
    exact hb0

theorem destroyFrom_inv :
    ∀ (fuel : Nat) (cells : List (Pos × Bool)) (h : Nat),
      (∀ c ∈ cells, InBounds c.1) →
      ∀ c ∈ destroyFrom cells h fuel, InBounds c.1 := by
  intro fuel
  induction fuel with
  | zero => intro cells h hc; exact hc
  | succ n ih =>
    intro cells h hc
    unfold destroyFrom
    split
    · exact ih (clearRow cells h) (h + 1) (clearRow_inv hc)
    split
    · exact hc
    · exact ih cells (h + 1) hc

theorem destroy_block_inv {stacked : List Pos}
    (hs : ∀ p ∈ stacked, InBounds p) :
    ∀ p ∈ destroy_block stacked, InBounds p := by
  intro p hp
  unfold destroy_block at hp
  rw [List.mem_map] at hp
  obtain ⟨c, hc, rfl⟩ := hp
  rw [List.mem_filter] at hc
  refine destroyFrom_inv ARENA_HEIGHT _ 0 ?_ c hc.1
  intro c0 hc0
  rw [List.mem_map] at hc0
  obtain ⟨q, hq, rfl⟩ := hc0
  exact hs q hq

theorem destroy_board_inv {b : Board} (hb : BoardInv b) :
    BoardInv (destroy_board b) :=
  ⟨hb.1, destroy_block_inv hb.2⟩

theorem applyAct_inv {a : Act} {b : Board} (hb : BoardInv b) :
    BoardInv (applyAct a b) := by
  cases a with
  | spawn idx => exact spawn_block_inv hb
  | input k => exact block_movement_input_inv hb
  | move => exact block_movement_inv hb
  | fall => exact block_free_fall_inv hb
  | stack now => exact stack_block_inv hb
  | respawn idx now => exact respawn_block_inv hb
  | destroy => exact destroy_board_inv hb

theorem applyActs_inv :
    ∀ (acts : List Act) (b : Board), BoardInv b → BoardInv (applyActs acts b) := by
  intro acts
  induction acts with
  | nil => intro b hb; exact hb
  | cons a rest ih =>
    intro b hb
    exact ih (applyAct a b) (applyAct_inv hb)

theorem reachable_inv {b : Board} (hb : Reachable b) : BoardInv b := by
  obtain ⟨acts, rfl⟩ := hb
  exact applyActs_inv acts initBoard (by decide)

/-! Helper lemmas about `stack_block`, `block_movement` and the line-clear
scan. -/

theorem stack_block_eq (now : ℚ) (b : Board) :
    stack_block now b =
      if (b.active.any fun p => decide (p.y ≤ 0)) then
        { b with stacked := b.stacked ++ b.active, active := [], is_on := false,
                 stack_time := now }
      else if (b.active.any fun p => is_collision b.stacked ⟨p.x, p.y - 1⟩) then
        { b with stacked := b.stacked ++ b.active, active := [], is_on := false,
                 stack_time := now }
      else b := rfl

theorem block_movement_direction (b : Board) :
    (block_movement b).direction = b.direction := by
  by_cases hL : b.direction = Direction.Left
  · rw [block_movement_of_left hL]
    split <;> rfl
  by_cases hR : b.direction = Direction.Right
  · rw [block_movement_of_right hR]
    split <;> rfl
  by_cases hD : b.direction = Direction.Down
  · rw [block_movement_of_down hD]
    split <;> rfl
  · rw [block_movement_of_other hL hR hD]

theorem rowEntities_eq_countP (cells : List (Pos × Bool)) (k : Nat) :
    rowEntities cells k = cells.countP (fun c => decide (c.1.y = (k : Int))) :=
  (List.countP_eq_length_filter _ _).symm

theorem rowEntities_map_true (cells : List Pos) (k : Nat) :
    rowEntities (cells.map (fun p => (p, true))) k = rowCount cells k := by
  rw [rowEntities_eq_countP, List.countP_map]
  rw [rowCount, List.countP_eq_length_filter]
  rfl

theorem rowEntities_clearRow {cells : List (Pos × Bool)} {h k : Nat}
    (hk : h < k) :
    rowEntities (clearRow cells h) k = rowEntities cells (k + 1) := by
  rw [clearRow_eq_map, rowEntities_eq_countP, rowEntities_eq_countP,
    List.countP_map]
  apply List.countP_congr
  intro c _
  rw [Function.comp_apply]
  by_cases h1 : c.1.y = (h : Int)
  · rw [if_pos h1]
    simp only [decide_eq_true_eq]
    constructor <;> intro hc <;> omega
  rw [if_neg h1]
  by_cases h2 : (h : Int) < c.1.y
  · rw [if_pos h2]
    simp only [decide_eq_true_eq]
    constructor <;> intro hc <;> omega
  · rw [if_neg h2]
    simp only [decide_eq_true_eq]
    constructor <;> intro hc <;> omega

theorem destroyFrom_succ (cells : List (Pos × Bool)) (h fuel : Nat) :
    destroyFrom cells h (fuel + 1) =
      if rowEntities cells h = ARENA_WIDTH then
        destroyFrom (clearRow cells h) (h + 1) fuel
      else if rowEntities cells h = 0 then cells
      else destroyFrom cells (h + 1) fuel := rfl

theorem destroyFrom_stop :
    ∀ (fuel : Nat) (cells : List (Pos × Bool)) (h : Nat),
      (∀ k, h ≤ k → k < h + fuel → rowEntities cells k ≠ ARENA_WIDTH) →
      destroyFrom cells h fuel = cells := by
  intro fuel
  induction fuel with
  | zero => intro cells h _; rfl
  | succ n ih =>
    intro cells h hk
    unfold destroyFrom
    rw [if_neg (hk h le_rfl (by omega))]
    split
    · rfl
    · exact ih cells (h + 1) (fun k hk1 hk2 => hk k (by omega) (by omega))

theorem destroyFrom_walk :
    ∀ (d : Nat) (cells : List (Pos × Bool)) (h fuel : Nat),
      d ≤ fuel →
      (∀ k, h ≤ k → k < h + d →
        rowEntities cells k ≠ ARENA_WIDTH ∧ rowEntities cells k ≠ 0) →
      destroyFrom cells h fuel = destroyFrom cells (h + d) (fuel - d) := by
  intro d
  induction d with
  | zero => intro cells h fuel _ _; rw [Nat.add_zero, Nat.sub_zero]
  | succ n ih =>
    intro cells h fuel hd hk
    obtain ⟨f, rfl⟩ : ∃ f, fuel = f + 1 := ⟨fuel - 1, by omega⟩
    have hrow := hk h le_rfl (by omega)
    rw [destroyFrom_succ]
    rw [if_neg hrow.1, if_neg hrow.2]
    rw [ih cells (h + 1) f (by omega) (fun k h1 h2 => hk k (by omega) (by omega))]
    have e1 : h + 1 + n = h + (n + 1) := by omega
    have e2 : f - n = f + 1 - (n + 1) := by omega
    rw [e1, e2]

theorem clearRow_final (cells : List Pos) (h : Nat) :
    ((clearRow (cells.map (fun p => (p, true))) h).filter
        (fun c => c.2)).map (fun c => c.1)
      = (cells.filter (fun p => decide (p.y ≠ (h : Int)))).map
          (fun p => if (h : Int) < p.y then ⟨p.x, p.y - 1⟩ else p) := by
  rw [clearRow_eq_map, List.map_map]
  induction cells with
  | nil => rfl
  | cons p rest ih =>
    rw [List.map_cons, List.filter_cons, List.filter_cons]
    by_cases h1 : p.y = (h : Int)
    · rw [Function.comp_apply]
      dsimp only
      rw [if_pos h1]
      have hd1 : decide ¬ p.y = (h : Int) = false := by
        rw [decide_eq_false_iff_not]
        intro hc
        exact hc h1
      rw [hd1]
      dsimp only
      exact ih
    · rw [Function.comp_apply]
      dsimp only
      rw [if_neg h1]
      have hd1 : decide ¬ p.y = (h : Int) = true := by
        rw [decide_eq_true_eq]
        exact h1
      rw [hd1]
      by_cases h2 : (h : Int) < p.y
      · rw [if_pos h2]
        dsimp only
        rw [if_pos rfl, if_pos rfl, List.map_cons, List.map_cons, if_pos h2, ih]
      · rw [if_neg h2]
        dsimp only
        rw [if_pos rfl, if_pos rfl, List.map_cons, List.map_cons, if_neg h2, ih]

/-! Claim theorems. -/

/-- C1 (code bug): the Gravity Driver does not compute the downward candidate
as SoftDrop does.  On a board whose single active cell `(0, 5)` sits directly
above the locked cell `(0, 4)`, a resolved SoftDrop move leaves the piece
unchanged (the one-step-down candidate equals a locked cell), yet one gravity
step commits the descent and moves the active cell onto the locked cell: the
source tests `y <= 0 && !is_collision` where the rejection condition would be
`y <= 0 || is_collision`. -/
theorem C1_gravity_not_softdrop :
    (⟨0, 4⟩ : Pos) ∈ c1Board.stacked ∧
    (block_movement { c1Board with direction := Direction.Down }).active
      = c1Board.active ∧
    (block_free_fall c1Board).active = [⟨0, 4⟩] := by decide

/-- C2 counterexample: on Scenario C exactly as the spec states it (`ARENA_WIDTH`
locked cells at `y = 3`, one locked cell at `(0, 5)`, rows 0..2 empty), one
`destroy_block` pass changes nothing — the scan hits the empty row 0 and
returns — so row 3 is not cleared and `(0, 5)` does not move to `(0, 4)`. -/
theorem C2_scenarioC_unchanged :
    destroy_block scenarioC = scenarioC ∧
    rowCount scenarioC 3 = ARENA_WIDTH ∧
    (⟨0, 3⟩ : Pos) ∈ destroy_block scenarioC ∧
    (⟨0, 5⟩ : Pos) ∈ destroy_block scenarioC := by decide

/-- C2 (amended): for a locked-cell list in which row `h < ARENA_HEIGHT` holds
exactly `ARENA_WIDTH` cells, every row below `h` is neither empty nor full,
and no row above `h` (up to `ARENA_HEIGHT`) is full, one `destroy_block` pass
removes every cell at height `h`, decrements by one the height of every cell
above `h`, and leaves every cell below `h` unchanged. -/
theorem C2_line_clear_shifts (cells : List Pos) (h : Nat)
    (hh : h < ARENA_HEIGHT)
    (hfull : rowCount cells h = ARENA_WIDTH)
    (hbelow : ∀ k, k < h → rowCount cells k ≠ 0 ∧ rowCount cells k ≠ ARENA_WIDTH)
    (habove : ∀ k, k < ARENA_HEIGHT + 1 → h < k → rowCount cells k ≠ ARENA_WIDTH) :
    destroy_block cells
      = (cells.filter (fun p => decide (p.y ≠ (h : Int)))).map
          (fun p => if (h : Int) < p.y then ⟨p.x, p.y - 1⟩ else p) := by
  unfold destroy_block
  have hwalk := destroyFrom_walk h (cells.map (fun p => (p, true))) 0 ARENA_HEIGHT
    (by omega)
    (fun k hk1 hk2 => by
      rw [rowEntities_map_true]
      have hbk := hbelow k (by omega)
      exact ⟨hbk.2, hbk.1⟩)
  rw [Nat.zero_add] at hwalk
  rw [hwalk]
  obtain ⟨f, hf⟩ : ∃ f, ARENA_HEIGHT - h = f + 1 := ⟨ARENA_HEIGHT - h - 1, by omega⟩
  rw [hf, destroyFrom_succ, if_pos (by rw [rowEntities_map_true]; exact hfull)]
  rw [destroyFrom_stop f (clearRow (cells.map (fun p => (p, true))) h) (h + 1)
    (fun k hk1 hk2 => by
      rw [rowEntities_clearRow (by omega), rowEntities_map_true]
      exact habove (k + 1) (by omega) (by omega))]
  exact clearRow_final cells h

/-- C2 witness: the amended theorem applied to Scenario C completed with one
filler cell in each of the rows 0, 1 and 2: row 3 is cleared and the cell at
`(0, 5)` drops to `(0, 4)`. -/
theorem C2_line_clear_shifts_witness :
    destroy_block c2cells
      = (c2cells.filter (fun p => decide (p.y ≠ ((3 : Nat) : Int)))).map
          (fun p => if ((3 : Nat) : Int) < p.y then ⟨p.x, p.y - 1⟩ else p) :=
  C2_line_clear_shifts c2cells 3 (by decide) (by decide) (by decide) (by decide)

/-- C3 (code bug): the Spawner does not always install a non-empty piece.
The sampled index ranges over `[0, 7)` but `BLOCKMAP` is keyed `1..7`, so the
firing with index 0 spawns no cell at all while still marking the piece as
installed (`is_on = true`). -/
theorem C3_spawn_zero_installs_nothing :
    (spawn_block 0 initBoard).is_on = true ∧
    (spawn_block 0 initBoard).active = [] := by decide

/-- C7 (code bug): the catalog lookup is not total over `[0, catalog_size)`:
index 0 has no entry (the keys run from 1 to 7), so the `None` branch of the
lookup is reachable for a sampled index. -/
theorem C7_lookup_not_total :
    blockmap_get 0 = none ∧
    ((List.range 7).all (fun i => (blockmap_get (i + 1)).isSome)) = true := by
  decide

/-- C4: the Lock Manager triggers exactly when some active cell has `y ≤ 0`
or the one-step-down shift of some active cell coincides with a locked cell.
On trigger, every active cell becomes a locked cell at the same `(x, y)`
(all of them with `y ≥ 0`, given in-range inputs), the active piece is
destroyed atomically and the respawn clock is set to the current time; when
neither condition holds the state is unchanged. -/
theorem C4_lock_manager (b : Board) (now : ℚ)
    (ha : ∀ p ∈ b.active, 0 ≤ p.y) (hs : ∀ p ∈ b.stacked, 0 ≤ p.y) :
    (((∃ p ∈ b.active, p.y ≤ 0) ∨
        (∃ p ∈ b.active, (⟨p.x, p.y - 1⟩ : Pos) ∈ b.stacked)) →
      stack_block now b =
          { b with stacked := b.stacked ++ b.active, active := [],
                   is_on := false, stack_time := now } ∧
        ∀ p ∈ (stack_block now b).stacked, 0 ≤ p.y) ∧
    ((¬ ((∃ p ∈ b.active, p.y ≤ 0) ∨
        (∃ p ∈ b.active, (⟨p.x, p.y - 1⟩ : Pos) ∈ b.stacked))) →
      stack_block now b = b) := by
  have h1 : (b.active.any fun p => decide (p.y ≤ 0)) = true ↔
      ∃ p ∈ b.active, p.y ≤ 0 := by
    simp [List.any_eq_true]
  have h2 : (b.active.any fun p => is_collision b.stacked ⟨p.x, p.y - 1⟩) = true ↔
      ∃ p ∈ b.active, (⟨p.x, p.y - 1⟩ : Pos) ∈ b.stacked := by
    simp only [List.any_eq_true, is_collision_eq_true]
  constructor
  · intro htrig
    have hres : stack_block now b =
        { b with stacked := b.stacked ++ b.active, active := [],
                 is_on := false, stack_time := now } := by
      rw [stack_block_eq]
      rcases htrig with ht | ht
      · rw [if_pos (h1.mpr ht)]
      · by_cases hfirst : (b.active.any fun p => decide (p.y ≤ 0)) = true
        · rw [if_pos hfirst]
        · rw [if_neg hfirst, if_pos (h2.mpr ht)]
    refine ⟨hres, ?_⟩
    rw [hres]
    intro p hp
    dsimp only at hp
    rw [List.mem_append] at hp
    rcases hp with hp | hp
    · exact hs p hp
    · exact ha p hp
  · intro hnot
    rw [not_or] at hnot
    rw [stack_block_eq]
    rw [if_neg (fun hc => hnot.1 (h1.mp hc)),
      if_neg (fun hc => hnot.2 (h2.mp hc))]

/-- C4 witness: Scenario B — the single-cell piece at `(5, 0)` locks into a
locked cell at `(5, 0)` with the active piece emptied and the clock set. -/
theorem C4_lock_manager_witness :
    stack_block 2 scenarioB =
      { scenarioB with stacked := scenarioB.stacked ++ scenarioB.active,
                       active := [], is_on := false, stack_time := 2 } :=
  ((C4_lock_manager scenarioB 2 (by decide) (by decide)).1
    (Or.inl ⟨⟨5, 0⟩, by decide, by decide⟩)).1

theorem specBlocked_left_iff {stacked : List Pos} {p : Pos}
    (hb : 0 ≤ p.x ∧ p.x < (ARENA_WIDTH : Int) ∧ 0 ≤ p.y) :
    ((is_collision stacked ⟨p.x - 1, p.y⟩ || decide (p.x ≤ 0)) = true) ↔
      specBlocked stacked (shiftPos (dirDiff Direction.Left) p) := by
  have hsp : shiftPos (dirDiff Direction.Left) p = ⟨p.x - 1, p.y⟩ := by
    unfold shiftPos
    simp only [dirDiff]
    congr 1
    omega
  rw [hsp]
  unfold specBlocked
  rw [Bool.or_eq_true, is_collision_eq_true, decide_eq_true_eq]
  dsimp only
  constructor
  · rintro (hmem | hle)
    · exact Or.inr (Or.inr (Or.inr hmem))
    · exact Or.inl (by omega)
  · rintro (hx | hx | hy | hmem)
    · right
      omega
    · exact absurd hx (by omega)
    · exact absurd hy (by omega)
    · exact Or.inl hmem

theorem specBlocked_right_iff {stacked : List Pos} {p : Pos}
    (hb : 0 ≤ p.x ∧ p.x < (ARENA_WIDTH : Int) ∧ 0 ≤ p.y) :
    ((is_collision stacked ⟨p.x + 1, p.y⟩ ||
        decide (p.x ≥ (ARENA_WIDTH : Int) - 1)) = true) ↔
      specBlocked stacked (shiftPos (dirDiff Direction.Right) p) := by
  have hsp : shiftPos (dirDiff Direction.Right) p = ⟨p.x + 1, p.y⟩ := by
    unfold shiftPos
    simp only [dirDiff]
    congr 1
    omega
  rw [hsp]
  unfold specBlocked
  rw [Bool.or_eq_true, is_collision_eq_true, decide_eq_true_eq]
  dsimp only
  constructor
  · rintro (hmem | hle)
    · exact Or.inr (Or.inr (Or.inr hmem))
    · exact Or.inr (Or.inl (by omega))
  · rintro (hx | hx | hy | hmem)
    · exact absurd hx (by omega)
    · right
      omega
    · exact absurd hy (by omega)
    · exact Or.inl hmem

theorem specBlocked_down_iff {stacked : List Pos} {p : Pos}
    (hb : 0 ≤ p.x ∧ p.x < (ARENA_WIDTH : Int) ∧ 0 ≤ p.y) :
    ((is_collision stacked ⟨p.x, p.y - 1⟩ || decide (p.y ≤ 0)) = true) ↔
      specBlocked stacked (shiftPos (dirDiff Direction.Down) p) := by
  have hsp : shiftPos (dirDiff Direction.Down) p = ⟨p.x, p.y - 1⟩ := by
    unfold shiftPos
    simp only [dirDiff]
    congr 1
    omega
  rw [hsp]
  unfold specBlocked
  rw [Bool.or_eq_true, is_collision_eq_true, decide_eq_true_eq]
  dsimp only
  constructor
  · rintro (hmem | hle)
    · exact Or.inr (Or.inr (Or.inr hmem))
    · exact Or.inr (Or.inr (Or.inl (by omega)))
  · rintro (hx | hx | hy | hmem)
    · exact absurd hx (by omega)
    · exact absurd hx (by omega)
    · right
      omega
    · exact Or.inl hmem

/-- C5: for `Left`, `Right` and `SoftDrop`, a move is all-or-nothing: when
some cell of the one-step candidate set is blocked in the sense of the spec
collision detector (out of `[0, ARENA_WIDTH)` horizontally, below the floor,
or on a locked cell), every active cell is left in place; otherwise every
active cell is translated by exactly the one-step offset.  Active cells are
assumed on the board (`0 ≤ x < ARENA_WIDTH`, `0 ≤ y`), which every reachable
state guarantees. -/
theorem C5_atomic_move (b : Board)
    (hd : b.direction = Direction.Left ∨ b.direction = Direction.Right ∨
          b.direction = Direction.Down)
    (hb : ∀ p ∈ b.active, 0 ≤ p.x ∧ p.x < (ARENA_WIDTH : Int) ∧ 0 ≤ p.y) :
    ((∃ p ∈ b.active, specBlocked b.stacked (shiftPos (dirDiff b.direction) p)) →
        (block_movement b).active = b.active) ∧
    ((∀ p ∈ b.active, ¬ specBlocked b.stacked (shiftPos (dirDiff b.direction) p)) →
        (block_movement b).active = b.active.map (shiftPos (dirDiff b.direction))) := by
  rcases hd with hL | hR | hD
  · have hiff : (b.active.any (fun p =>
        is_collision b.stacked ⟨p.x - 1, p.y⟩ || decide (p.x ≤ 0))) = true ↔
        ∃ p ∈ b.active, specBlocked b.stacked (shiftPos (dirDiff b.direction) p) := by
      rw [List.any_eq_true]
      constructor
      · rintro ⟨p, hp, hf⟩
        refine ⟨p, hp, ?_⟩
        rw [hL]
        exact (specBlocked_left_iff (hb p hp)).mp hf
      · rintro ⟨p, hp, hf⟩
        refine ⟨p, hp, (specBlocked_left_iff (hb p hp)).mpr ?_⟩
        rw [← hL]
        exact hf
    constructor
    · intro hex
      rw [block_movement_of_left hL, if_pos (hiff.mpr hex)]
    · intro hall
      have hflag : ¬ ((b.active.any (fun p =>
          is_collision b.stacked ⟨p.x - 1, p.y⟩ || decide (p.x ≤ 0))) = true) := by
        intro hc
        obtain ⟨p, hp, hbl⟩ := hiff.mp hc
        exact hall p hp hbl
      rw [block_movement_of_left hL, if_neg hflag, hL]
      rfl
  · have hiff : (b.active.any (fun p =>
        is_collision b.stacked ⟨p.x + 1, p.y⟩ ||
          decide (p.x ≥ (ARENA_WIDTH : Int) - 1))) = true ↔
        ∃ p ∈ b.active, specBlocked b.stacked (shiftPos (dirDiff b.direction) p) := by
      rw [List.any_eq_true]
      constructor
      · rintro ⟨p, hp, hf⟩
        refine ⟨p, hp, ?_⟩
        rw [hR]
        exact (specBlocked_right_iff (hb p hp)).mp hf
      · rintro ⟨p, hp, hf⟩
        refine ⟨p, hp, (specBlocked_right_iff (hb p hp)).mpr ?_⟩
        rw [← hR]
        exact hf
    constructor
    · intro hex
      rw [block_movement_of_right hR, if_pos (hiff.mpr hex)]
    · intro hall
      have hflag : ¬ ((b.active.any (fun p =>
          is_collision b.stacked ⟨p.x + 1, p.y⟩ ||
            decide (p.x ≥ (ARENA_WIDTH : Int) - 1))) = true) := by
        intro hc
        obtain ⟨p, hp, hbl⟩ := hiff.mp hc
        exact hall p hp hbl
      rw [block_movement_of_right hR, if_neg hflag, hR]
      rfl
  · have hiff : (b.active.any (fun p =>
        is_collision b.stacked ⟨p.x, p.y - 1⟩ || decide (p.y ≤ 0))) = true ↔
        ∃ p ∈ b.active, specBlocked b.stacked (shiftPos (dirDiff b.direction) p) := by
      rw [List.any_eq_true]
      constructor
      · rintro ⟨p, hp, hf⟩
        refine ⟨p, hp, ?_⟩
        rw [hD]
        exact (specBlocked_down_iff (hb p hp)).mp hf
      · rintro ⟨p, hp, hf⟩
        refine ⟨p, hp, (specBlocked_down_iff (hb p hp)).mpr ?_⟩
        rw [← hD]
        exact hf
    constructor
    · intro hex
      rw [block_movement_of_down hD, if_pos (hiff.mpr hex)]
    · intro hall
      have hflag : ¬ ((b.active.any (fun p =>
          is_collision b.stacked ⟨p.x, p.y - 1⟩ || decide (p.y ≤ 0))) = true) := by
        intro hc
        obtain ⟨p, hp, hbl⟩ := hiff.mp hc
        exact hall p hp hbl
      rw [block_movement_of_down hD, if_neg hflag, hD]
      rfl

/-- C5 witness: a two-cell piece at `(3, 5), (4, 5)` moving left over the
locked cell `(4, 4)`: no candidate is blocked and the whole piece shifts by
`(-1, 0)`. -/
theorem C5_atomic_move_witness :
    (block_movement c5Board).active
      = c5Board.active.map (shiftPos (dirDiff c5Board.direction)) :=
  (C5_atomic_move c5Board (Or.inl rfl) (by decide)).2 (by decide)

/-- C8: when the resolved input of the tick is SoftDrop, the gravity system
is a no-op (both on the pre-movement and on the post-movement state), and the
movement system itself descends the piece by at most one row; the held-down
input therefore fully substitutes for gravity in that tick. -/
theorem C8_softdrop_substitutes_gravity (b : Board)
    (hd : b.direction = Direction.Down) :
    block_free_fall b = b ∧
    block_free_fall (block_movement b) = block_movement b ∧
    ((block_movement b).active = b.active ∨
      (block_movement b).active = b.active.map (fun p => ⟨p.x, p.y - 1⟩)) := by
  refine ⟨block_free_fall_of_down hd, ?_, ?_⟩
  · exact block_free_fall_of_down (by rw [block_movement_direction, hd])
  · rw [block_movement_of_down hd]
    split
    · exact Or.inl rfl
    · right
      dsimp only
      rw [move_tetoriminos]
      apply List.map_congr_left
      intro p _
      show (⟨p.x + 0, p.y + -1⟩ : Pos) = ⟨p.x, p.y - 1⟩
      congr 1
      omega

/-- C8 witness: a soft-dropping single-cell piece at `(4, 6)` above the locked
cell `(4, 4)` descends exactly one row and gravity adds nothing. -/
theorem C8_softdrop_substitutes_gravity_witness :
    block_free_fall softDropBoard = softDropBoard ∧
    block_free_fall (block_movement softDropBoard) = block_movement softDropBoard ∧
    ((block_movement softDropBoard).active = softDropBoard.active ∨
      (block_movement softDropBoard).active
        = softDropBoard.active.map (fun p => ⟨p.x, p.y - 1⟩)) :=
  C8_softdrop_substitutes_gravity softDropBoard rfl

/-- C9 counterexample: a piece at `(3, 5)` (origin well below
`ARENA_HEIGHT − 1`) with the up input resolved to `Direction::Up` does not
move at all — its cells' `y` does not increase. -/
theorem C9_rise_counterexample :
    riseBoard.direction = Direction.Up ∧
    riseBoard.active = [⟨3, 5⟩] ∧
    (block_movement riseBoard).active = [⟨3, 5⟩] := by decide

/-- C9 (amended): resolving the `Rise` (up) direction is a no-op: the
movement system has no `Up` branch, so the board is unchanged regardless of
the piece's height. -/
theorem C9_rise_noop (b : Board) (hd : b.direction = Direction.Up) :
    block_movement b = b :=
  block_movement_of_other (by rw [hd]; decide) (by rw [hd]; decide)
    (by rw [hd]; decide)

/-- C9 witness: the no-op theorem applied to the concrete rising board. -/
theorem C9_rise_noop_witness : block_movement riseBoard = riseBoard :=
  C9_rise_noop riseBoard rfl

set_option maxRecDepth 10000 in
/-- C6 counterexample: a reachable state built from sampler-producible inputs
only (seven L-pieces, catalog key 4, stacked in columns 3/4; the seventh
locks at rows 18..20) has a locked cell with `y ≥ ARENA_HEIGHT`, refuting the
claimed upper bound `y < HEIGHT` on locked cells. -/
theorem C6_locked_cell_above_height :
    ReachableSampled (applyActs c6trace initBoard) ∧
    Reachable (applyActs c6trace initBoard) ∧
    ((applyActs c6trace initBoard).stacked.any
        (fun p => decide ((ARENA_HEIGHT : Int) ≤ p.y))) = true :=
  ⟨⟨c6trace, by decide, rfl⟩, ⟨c6trace, rfl⟩, by decide⟩

/-- C6 (amended): in every reachable state, every locked and every active
cell satisfies `0 ≤ x < ARENA_WIDTH` and `0 ≤ y`; the upper bound
`y < ARENA_HEIGHT` is not maintained for locked cells. -/
theorem C6_reachable_bounds (b : Board) (hb : Reachable b) : BoardInv b :=
  reachable_inv hb

/-- C6 witness: the bounds invariant holds on the state reached by one
spawn. -/
theorem C6_reachable_bounds_witness :
    BoardInv (applyActs [Act.spawn 3] initBoard) :=
  C6_reachable_bounds (applyActs [Act.spawn 3] initBoard) ⟨[Act.spawn 3], rfl⟩

/-- C10: in every reachable state every active cell has `y ≥ 0`: spawning
places cells at `y ≥ ARENA_HEIGHT − 1`, side moves preserve `y`, and with all
locked cells at `y ≥ 0` neither the SoftDrop resolver nor the gravity step
commits a downward step from `y = 0`. -/
theorem C10_active_cells_nonneg (b : Board) (hb : Reachable b) :
    ∀ p ∈ b.active, 0 ≤ p.y := by
  intro p hp
  exact (inBounds_iff.mp ((reachable_inv hb).1 p hp)).2.2

/-- C10 witness: the invariant applied to the freshly spawned L-piece cell
`(3, 19)` (catalog key 4, inside the sampler's range). -/
theorem C10_active_cells_nonneg_witness :
    Reachable (applyActs [Act.spawn 4] initBoard) ∧ 0 ≤ (⟨3, 19⟩ : Pos).y :=
  ⟨⟨[Act.spawn 4], rfl⟩,
    C10_active_cells_nonneg (applyActs [Act.spawn 4] initBoard)
      ⟨[Act.spawn 4], rfl⟩ ⟨3, 19⟩ (by decide)⟩

end Tetris
